import Mathlib

/-
Verification of the ledDimming Arduino program (ledDimming.ino) against its
natural-language specification.

The program drives three LEDs from one timer interrupt.  The ISR
(SIGNAL(TIMER1_OVF_vect), compiled with BRESENHAM_ALGORITHM = 1) runs, for each
of the three channels, a Bresenham pulse-train step; the main loop (loop())
ramps the requested brightness up and down with a quadratic gamma correction
and writes it into the shared volatile array brightness[3].

Shallow embedding conventions:
  - uint16_t / uint32_t values are Nat with an explicit % 65536 or % 4294967296
    exactly where the C arithmetic can wrap (on AVR, int is 16 bits, so
    uint16_t arithmetic is performed mod 2^16).
  - the per-channel static state of the ISR (ledBrightness, progress,
    stepCounter) together with the shared pulseTrainCount is the structure
    Chan; the whole ISR state (shared brightness array, the three channels,
    initValues flag, output PORT register) is the structure IsrState.
  - interleaving with the main program: all shared-variable writes by loop()
    are wrapped in cli()/sei() and the AVR ISR itself cannot be preempted, so
    every execution is equivalent to main-loop writes happening between ISR
    ticks.  The environment of a run of ISR ticks is therefore a sequence
    giving, before each tick, the current content of the shared brightness
    array and whether initValues is still set (the main loop can only clear
    it, never set it again).
-/

set_option maxHeartbeats 1000000

namespace LedDimming

/-- constexpr uint16_t brightness_bits[3]{ 5, 7, 9 } -/
def brightness_bits (i : Fin 3) : Nat :=
  if i.val = 0 then 5 else if i.val = 1 then 7 else 9

/-- constexpr uint16_t lowestBrightnessMinimalFlicker[3]{ 0, 2, 8 } -/
def lowestBrightnessMinimalFlicker (i : Fin 3) : Nat :=
  if i.val = 0 then 0 else if i.val = 1 then 2 else 8

/-- constexpr uint16_t brightnessLevelLedON[3]{ (1 << brightness_bits[i]) - 1, ... }
    (the per-channel refresh period: 31, 127, 511). -/
def brightnessLevelLedON (i : Fin 3) : Nat :=
  (1 <<< brightness_bits i) - 1

/-- Per-channel state of the ISR: the static arrays ledBrightness[3],
    progress[3], stepCounter[3] (uint16_t) and the shared volatile
    pulseTrainCount[3] (uint32_t), restricted to one index. -/
structure Chan where
  ledBrightness : Nat
  progress : Nat
  stepCounter : Nat
  pulseTrainCount : Nat

/-- `if (progress[index] == 0) { ledBrightness[index] = brightness[index];
    pulseTrainCount[index]++; }` — the cycle-boundary load.  pulseTrainCount is
    uint32_t, hence the % 2^32. -/
def loadAtBoundary (input : Nat) (ch : Chan) : Chan :=
  if ch.progress = 0 then
    { ch with ledBrightness := input,
              pulseTrainCount := (ch.pulseTrainCount + 1) % 4294967296 }
  else ch

/-- `++progress[index] %= brightnessLevelLedON[index]` — uint16_t increment
    (mod 2^16) followed by the reduction mod the period p. -/
def advanceProgress (p : Nat) (ch : Chan) : Chan :=
  { ch with progress := ((ch.progress + 1) % 65536) % p }

/-- The body of the ISR after the progress update, for one channel: the LED-OFF
    fast path and Bresenham's line algorithm.  Returns the updated channel
    state and the ON/OFF decision for this tick (whether ledStateBits gets this
    channel's bit). -/
def bresenhamDecision (p : Nat) (ch : Chan) : Chan × Bool :=
  if ch.ledBrightness = 0 then (ch, false)
  else if ch.stepCounter = 0 then
    ({ ch with stepCounter := if ch.ledBrightness = p then 0 else ch.ledBrightness },
     true)
  else
    let newStep : Nat := ((ch.stepCounter + ch.ledBrightness) % 65536) % p
    ({ ch with stepCounter := newStep },
     decide (newStep < ch.stepCounter ∧ newStep ≠ 0))

/-- One ISR tick for one channel with period p, where input is the current
    content of the shared brightness register for that channel. -/
def chanTick (p input : Nat) (ch : Chan) : Chan × Bool :=
  bresenhamDecision p (advanceProgress p (loadAtBoundary input ch))

/-- constexpr uint8_t bitMaskRGBleds{ B00011100 } -/
def bitMaskRGBleds : Nat := 28

/-- Full state touched by the ISR: the shared brightness array, the three
    channel states, the shared initValues flag and the output PORT register
    (PORTD resp. PORTK, a uint8_t). -/
structure IsrState where
  brightness : Fin 3 → Nat
  chans : Fin 3 → Chan
  initValues : Bool
  port : Nat

/-- One invocation of SIGNAL(TIMER1_OVF_vect): if initValues is still set the
    ISR returns immediately; otherwise it runs the per-channel step for the
    three channels (ledBit is 4, 8, 16 for channels 0, 1, 2: PORT bits 2,3,4)
    and writes PORT = (PORT & ~bitMaskRGBleds) | ledStateBits. -/
def isrTick (s : IsrState) : IsrState :=
  if s.initValues then s
  else
    { brightness := s.brightness
      chans := fun j =>
        if j.val = 0 then (chanTick (brightnessLevelLedON 0) (s.brightness 0) (s.chans 0)).1
        else if j.val = 1 then (chanTick (brightnessLevelLedON 1) (s.brightness 1) (s.chans 1)).1
        else (chanTick (brightnessLevelLedON 2) (s.brightness 2) (s.chans 2)).1
      initValues := s.initValues
      port := (s.port &&& (255 - bitMaskRGBleds)) |||
        ((if (chanTick (brightnessLevelLedON 0) (s.brightness 0) (s.chans 0)).2 then 4 else 0) |||
         (if (chanTick (brightnessLevelLedON 1) (s.brightness 1) (s.chans 1)).2 then 8 else 0) |||
         (if (chanTick (brightnessLevelLedON 2) (s.brightness 2) (s.chans 2)).2 then 16 else 0)) }

/-- The zero-initialized state at power-up: brightness[3]{0,0,0}, all static
    channel state zeroed, initValues = true. -/
def isrInit : IsrState :=
  { brightness := fun _ => 0
    chans := fun _ => ⟨0, 0, 0, 0⟩
    initValues := true
    port := 0 }

/-- What the main program may do between two ISR ticks: rewrite the shared
    brightness array and possibly clear (never set) initValues.  The Bool is
    "keep initValues". -/
def envApply (e : (Fin 3 → Nat) × Bool) (s : IsrState) : IsrState :=
  { s with brightness := e.1, initValues := s.initValues && e.2 }

/-- n ISR ticks from state s, the environment env giving before each tick the
    shared values the main loop has put there. -/
def isrRunFrom (env : Nat → (Fin 3 → Nat) × Bool) (s : IsrState) : Nat → IsrState
  | 0 => s
  | n + 1 => isrTick (envApply (env n) (isrRunFrom env s n))

/-- Iterated single-channel ticks with a constant shared-register content d. -/
def chanIter (p d : Nat) (ch : Chan) : Nat → Chan
  | 0 => ch
  | k + 1 => (chanTick p d (chanIter p d ch k)).1

/-- The ISR's ON/OFF decision for this channel at tick k+1 (0-indexed k),
    with constant shared-register content d. -/
def chanOn (p d : Nat) (ch : Chan) (k : Nat) : Bool :=
  (chanTick p d (chanIter p d ch k)).2

/-- Number of ON decisions among the first k ticks. -/
def countOn (p d : Nat) (ch : Chan) : Nat → Nat
  | 0 => 0
  | k + 1 => countOn p d ch k + (if chanOn p d ch k then 1 else 0)

/-- Iterated single-channel ticks with a per-tick shared-register content. -/
def chanIterSeq (p : Nat) (inp : Nat → Nat) (ch : Chan) : Nat → Chan
  | 0 => ch
  | k + 1 => (chanTick p (inp k) (chanIterSeq p inp ch k)).1

/-- Number of ticks j < k at which a channel whose progress starts at g hits a
    cycle boundary (progress = 0 at the start of the tick). -/
def hitCount (p g : Nat) : Nat → Nat
  | 0 => 0
  | k + 1 => hitCount p g k + (if (g + k) % p = 0 then 1 else 0)

/-- A channel at a cycle boundary in the canonical start state. -/
def startCh : Chan := ⟨0, 0, 0, 0⟩

/-- Inductive invariant of one channel of the ISR (period p): progress stays
    below the period, the loaded duty stays in range (granted in-range shared
    writes), and the step counter always equals progress * loadedDuty mod p. -/
def ChanInv (p : Nat) (ch : Chan) : Prop :=
  ch.progress < p ∧ ch.ledBrightness ≤ p ∧
  ch.stepCounter = (ch.progress * ch.ledBrightness) % p

/-- The gamma-correction approximation of loop():
    ((uint32_t)(pulsesON_0_n[index]) * (pulsesON_0_n[index] + 1)) >> bits.
    The second factor is uint16_t arithmetic (16-bit int on AVR), hence the
    % 2^16; the uint32_t product of two values < 2^16 cannot wrap. -/
def gammaApprox (bits u : Nat) : Nat :=
  (u * ((u + 1) % 65536)) >>> bits

/-- Per-channel state of loop(): the static pulsesON_0_n[index] (uint16_t),
    direction[index] (int8_t, always +1 or -1), and the brightness value most
    recently passed to the ISR. -/
structure Ctrl where
  pulsesON : Nat
  direction : Int
  br : Nat

/-- One triggered brightness change of loop() for one channel (the body of the
    `if (changeBrightnessNow[index] || initValues)` block):
    pulsesON_0_n[index] += direction[index] (uint16_t);
    br = max(gamma, lowest); flip direction on hitting either bound;
    brightness[index] = br.  The timing of triggers (refresh-cycle counts or
    wall time) does not influence the values written, so it is not modelled. -/
def ctrlStep (bits low : Nat) (c : Ctrl) : Ctrl :=
  let u : Nat := (((c.pulsesON : Int) + c.direction) % 65536).toNat
  let brv : Nat := (max (gammaApprox bits u) low) % 65536
  let dir : Int :=
    if (brv = low ∧ c.direction = -1) ∨ brv = (1 <<< bits) - 1 then
      -c.direction
    else c.direction
  ⟨u, dir, brv⟩

/-- Initial controller state: pulsesON_0_n[i] =
    (uint16_t)(sqrt(lowestBrightnessMinimalFlicker[i] << brightness_bits[i])),
    direction 1.  The C double sqrt is exact here because 0 << 5, 2 << 7 and
    8 << 9 are perfect squares (0, 256, 4096), so Nat.sqrt renders it
    faithfully.  br starts at 0, the initial content of brightness[3]. -/
def ctrlInit (bits low : Nat) : Ctrl :=
  ⟨Nat.sqrt (low <<< bits), 1, 0⟩

/-- Inductive invariant of the controller dynamics for one channel. -/
def CtrlInv (bits low : Nat) (c : Ctrl) : Prop :=
  (c.direction = 1 ∧ c.pulsesON + 2 ≤ 2 ^ bits) ∨
  (c.direction = -1 ∧ c.pulsesON + 1 ≤ 2 ^ bits ∧ low < gammaApprox bits c.pulsesON)

/-- Sample ISR state for witnesses: initialization finished, channels in the
    boundary start state, a constant shared brightness. -/
def sampleState : IsrState :=
  { brightness := fun _ => 9
    chans := fun _ => startCh
    initValues := false
    port := 0 }

/-- Sample environment: the main loop keeps brightness 5 on all channels and
    leaves initValues alone. -/
def sampleEnv : Nat → (Fin 3 → Nat) × Bool :=
  fun _ => (fun _ => 5, true)

/-! Basic projection lemmas for one channel tick. -/

theorem chanTick_fst_progress (p input : Nat) (ch : Chan) :
    (chanTick p input ch).1.progress = ((ch.progress + 1) % 65536) % p := by
  unfold chanTick bresenhamDecision advanceProgress loadAtBoundary
  split_ifs <;> rfl

theorem chanTick_fst_pulseTrainCount (p input : Nat) (ch : Chan) :
    (chanTick p input ch).1.pulseTrainCount =
      if ch.progress = 0 then (ch.pulseTrainCount + 1) % 4294967296
      else ch.pulseTrainCount := by
  unfold chanTick bresenhamDecision advanceProgress loadAtBoundary
  split_ifs <;> rfl

theorem chanTick_fst_ledBrightness (p input : Nat) (ch : Chan) :
    (chanTick p input ch).1.ledBrightness =
      if ch.progress = 0 then input else ch.ledBrightness := by
  unfold chanTick bresenhamDecision advanceProgress loadAtBoundary
  split_ifs <;> rfl

theorem isrTick_initValues (s : IsrState) : (isrTick s).initValues = s.initValues := by
  unfold isrTick; split <;> rfl

theorem isrTick_of_init (s : IsrState) (h : s.initValues = true) : isrTick s = s := by
  unfold isrTick; rw [if_pos h]

theorem isrTick_chans (s : IsrState) (h : s.initValues = false) (i : Fin 3) :
    (isrTick s).chans i =
      (chanTick (brightnessLevelLedON i) (s.brightness i) (s.chans i)).1 := by
  unfold isrTick
  rw [if_neg (by rw [h]; exact Bool.false_ne_true)]
  fin_cases i <;> rfl

/-- C10: while initValues is true, the ISR returns immediately and changes
    nothing: not the channel states, not the counters, not the PORT register. -/
theorem c10_init_frame (s : IsrState) (h : s.initValues = true) : isrTick s = s := by
  unfold isrTick; rw [if_pos h]

theorem c10_init_frame_witness : isrTick isrInit = isrInit :=
  c10_init_frame isrInit rfl

/-- C2: for every channel, the ISR's loaded brightness changes only on ticks
    where progress = 0 at the start of the tick; and once initialization is
    done, a boundary tick loads exactly the current content of the shared
    brightness register. -/
theorem c2_boundary_load (s : IsrState) (i : Fin 3) :
    (((isrTick s).chans i).ledBrightness ≠ (s.chans i).ledBrightness →
      (s.chans i).progress = 0) ∧
    (s.initValues = false → (s.chans i).progress = 0 →
      ((isrTick s).chans i).ledBrightness = s.brightness i) := by
  cases hInit : s.initValues
  · constructor
    · intro hne
      rw [isrTick_chans s hInit i, chanTick_fst_ledBrightness] at hne
      by_contra h0
      rw [if_neg h0] at hne
      exact hne rfl
    · intro _ h0
      rw [isrTick_chans s hInit i, chanTick_fst_ledBrightness, if_pos h0]
  · have hid : isrTick s = s := by unfold isrTick; rw [if_pos hInit]
    constructor
    · intro hne
      rw [hid] at hne
      exact absurd rfl hne
    · intro hfalse
      exact absurd hfalse (by simp)

theorem c2_boundary_load_witness :
    ((isrTick sampleState).chans 0).ledBrightness = sampleState.brightness 0 :=
  (c2_boundary_load sampleState 0).2 rfl rfl

/-- C4: period 11, duty 7, starting at a cycle boundary with accumulator 0:
    the ON/OFF decisions over the 11 ticks are
    ON,ON,OFF,ON,ON,OFF,ON,ON,OFF,ON,OFF (7 ON ticks) and the step counter
    takes the successive values 7,3,10,6,2,9,5,1,8,4,0. -/
theorem c4_concrete_scenario :
    (List.range 11).map (fun k => chanOn 11 7 startCh k) =
      [true, true, false, true, true, false, true, true, false, true, false] ∧
    (List.range 11).map (fun k => (chanIter 11 7 startCh (k + 1)).stepCounter) =
      [7, 3, 10, 6, 2, 9, 5, 1, 8, 4, 0] ∧
    countOn 11 7 startCh 11 = 7 := by
  decide

/-- C6, counterexample: the Engine does NOT clamp an out-of-range duty.  With
    channel 0 (period 31) and shared duty 40 > period present at a cycle
    boundary, the loaded ledBrightness is 40, not the period. -/
theorem c6_counterexample :
    brightnessLevelLedON 0 = 31 ∧
    (chanTick (brightnessLevelLedON 0) 40 startCh).1.ledBrightness = 40 ∧
    (chanTick (brightnessLevelLedON 0) 40 startCh).1.ledBrightness ≠
      brightnessLevelLedON 0 := by
  decide

/-- C6, amended: the Engine performs no defensive clamping at the
    cycle-boundary load: whatever value is in the shared duty register is
    copied verbatim into ledBrightness. -/
theorem c6_no_clamp (p input : Nat) (ch : Chan) (h : ch.progress = 0) :
    (chanTick p input ch).1.ledBrightness = input := by
  rw [chanTick_fst_ledBrightness, if_pos h]

theorem c6_no_clamp_witness :
    (chanTick (brightnessLevelLedON 0) 40 startCh).1.ledBrightness = 40 :=
  c6_no_clamp (brightnessLevelLedON 0) 40 startCh rfl

/-! Stage lemmas for the three pieces of the per-channel tick. -/

theorem loadAtBoundary_progress (input : Nat) (ch : Chan) :
    (loadAtBoundary input ch).progress = ch.progress := by
  unfold loadAtBoundary; split_ifs <;> rfl

theorem loadAtBoundary_stepCounter (input : Nat) (ch : Chan) :
    (loadAtBoundary input ch).stepCounter = ch.stepCounter := by
  unfold loadAtBoundary; split_ifs <;> rfl

theorem advanceProgress_ledBrightness (p : Nat) (ch : Chan) :
    (advanceProgress p ch).ledBrightness = ch.ledBrightness := rfl

theorem advanceProgress_stepCounter (p : Nat) (ch : Chan) :
    (advanceProgress p ch).stepCounter = ch.stepCounter := rfl

theorem advanceProgress_progress (p : Nat) (ch : Chan) :
    (advanceProgress p ch).progress = ((ch.progress + 1) % 65536) % p := rfl

theorem bres_start (p : Nat) (ch : Chan) (h : ch.ledBrightness ≠ 0)
    (h2 : ch.stepCounter = 0) :
    bresenhamDecision p ch =
      ({ ch with stepCounter := if ch.ledBrightness = p then 0 else ch.ledBrightness },
       true) := by
  unfold bresenhamDecision; rw [if_neg h, if_pos h2]

theorem bres_mid (p : Nat) (ch : Chan) (h : ch.ledBrightness ≠ 0)
    (h2 : ch.stepCounter ≠ 0) :
    bresenhamDecision p ch =
      ({ ch with stepCounter := ((ch.stepCounter + ch.ledBrightness) % 65536) % p },
       decide (((ch.stepCounter + ch.ledBrightness) % 65536) % p < ch.stepCounter ∧
               ((ch.stepCounter + ch.ledBrightness) % 65536) % p ≠ 0)) := by
  unfold bresenhamDecision; rw [if_neg h, if_neg h2]

/-- One tick of the Bresenham engine at an arbitrary position m of a run with
    constant in-range duty d: the state follows the closed forms
    progress = m % p, stepCounter = m*d % p, and the ON decision fires exactly
    when the previous accumulator was 0 or the new sum passes the period. -/
theorem chanTick_mid (p d m : Nat) (st : Chan)
    (hp : 2 ≤ p) (hp' : p ≤ 32767) (hd : 1 ≤ d) (hdp : d ≤ p - 1)
    (hprog : st.progress = m % p) (hstep : st.stepCounter = m * d % p)
    (hB : st.progress = 0 ∨ st.ledBrightness = d) :
    (chanTick p d st).1.ledBrightness = d ∧
    (chanTick p d st).1.progress = (m + 1) % p ∧
    (chanTick p d st).1.stepCounter = (m + 1) * d % p ∧
    ((chanTick p d st).2 = true ↔ (m * d % p = 0 ∨ p < m * d % p + d)) := by
  have hdlt : d < p := by omega
  have halt : m * d % p < p := Nat.mod_lt _ (by omega)
  have hL1 : (loadAtBoundary d st).ledBrightness = d := by
    unfold loadAtBoundary
    split_ifs with h
    · rfl
    · exact hB.resolve_left h
  have hA1 : (advanceProgress p (loadAtBoundary d st)).ledBrightness = d := by
    rw [advanceProgress_ledBrightness, hL1]
  have hA2 : (advanceProgress p (loadAtBoundary d st)).progress = (m + 1) % p := by
    rw [advanceProgress_progress, loadAtBoundary_progress, hprog]
    have hmp : m % p < p := Nat.mod_lt _ (by omega)
    have h1 : m % p + 1 < 65536 := by omega
    rw [Nat.mod_eq_of_lt h1, Nat.mod_add_mod]
  have hA3 : (advanceProgress p (loadAtBoundary d st)).stepCounter = m * d % p := by
    rw [advanceProgress_stepCounter, loadAtBoundary_stepCounter, hstep]
  have hmul : (m + 1) * d = m * d + d := by rw [add_mul, one_mul]
  by_cases hz : m * d % p = 0
  · rw [chanTick, bres_start p _ (by rw [hA1]; omega) (by rw [hA3, hz])]
    refine ⟨hA1, hA2, ?_, ?_⟩
    · show (if (advanceProgress p (loadAtBoundary d st)).ledBrightness = p then 0
            else (advanceProgress p (loadAtBoundary d st)).ledBrightness) = (m + 1) * d % p
      rw [hA1, if_neg (by omega), hmul, ← Nat.mod_add_mod, hz, Nat.zero_add,
        Nat.mod_eq_of_lt hdlt]
    · simp [hz]
  · rw [chanTick, bres_mid p _ (by rw [hA1]; omega) (by rw [hA3]; exact hz)]
    have h65 : (m * d % p + d) % 65536 = m * d % p + d := Nat.mod_eq_of_lt (by omega)
    have hnew : ((advanceProgress p (loadAtBoundary d st)).stepCounter +
        (advanceProgress p (loadAtBoundary d st)).ledBrightness) % 65536 % p =
        (m * d % p + d) % p := by
      rw [hA3, hA1, h65]
    have hval : (m * d % p + d) % p = (m + 1) * d % p := by
      rw [Nat.mod_add_mod, hmul]
    refine ⟨hA1, hA2, ?_, ?_⟩
    · show ((advanceProgress p (loadAtBoundary d st)).stepCounter +
        (advanceProgress p (loadAtBoundary d st)).ledBrightness) % 65536 % p = (m + 1) * d % p
      rw [hnew, hval]
    · show (decide _ = true) ↔ _
      rw [decide_eq_true_iff, hnew, hA3]
      rcases Nat.lt_trichotomy (m * d % p + d) p with h | h | h
      · rw [Nat.mod_eq_of_lt h]
        omega
      · rw [h, Nat.mod_self]
        omega
      · have hsub : (m * d % p + d) % p = m * d % p + d - p := by
          rw [Nat.mod_eq_sub_mod (Nat.le_of_lt h), Nat.mod_eq_of_lt (by omega)]
        rw [hsub]
        omega

/-- Ceiling-division step: the ceiling of (m+1)d/p exceeds that of md/p exactly
    when the Bresenham accumulator at step m is 0 or wraps past p. -/
theorem ceil_div_step (p d m : Nat) (hp : 0 < p) (hd : 1 ≤ d) (hdp : d < p) :
    ((m + 1) * d + (p - 1)) / p =
      (m * d + (p - 1)) / p +
        (if m * d % p = 0 ∨ p < m * d % p + d then 1 else 0) := by
  have hdm := Nat.div_add_mod (m * d) p
  have ha : m * d % p < p := Nat.mod_lt _ hp
  have h1 : (m + 1) * d + (p - 1) = p * (m * d / p) + (m * d % p + d + (p - 1)) := by
    rw [add_mul, one_mul]; omega
  have h2 : m * d + (p - 1) = p * (m * d / p) + (m * d % p + (p - 1)) := by omega
  rw [h1, h2, Nat.mul_add_div hp, Nat.mul_add_div hp]
  have e1 : (m * d % p + (p - 1)) / p = if m * d % p = 0 then 0 else 1 := by
    split_ifs with h
    · rw [h]; exact Nat.div_eq_of_lt (by omega)
    · exact Nat.div_eq_of_lt_le (by omega) (by omega)
  have e2 : (m * d % p + d + (p - 1)) / p =
      if m * d % p = 0 ∨ p < m * d % p + d then
        (if m * d % p = 0 then 1 else 2)
      else 1 := by
    split_ifs with h h'
    · exact Nat.div_eq_of_lt_le (by omega) (by omega)
    · have : p < m * d % p + d := by
        rcases h with h | h
        · exact absurd h h'
        · exact h
      exact Nat.div_eq_of_lt_le (by omega) (by omega)
    · push_neg at h
      exact Nat.div_eq_of_lt_le (by omega) (by omega)
  rw [e1, e2]
  split_ifs <;> omega

/-- Closed forms for the whole run from a cycle boundary with constant in-range
    duty d: state of the channel after k+1 ticks, and the ON-decision count
    over the first k ticks equals the ceiling of k*d/p. -/
theorem chanCycle (p d : Nat) (ch : Chan) (hp : 2 ≤ p) (hp' : p ≤ 32767)
    (hd : 1 ≤ d) (hdp : d ≤ p - 1) (h0 : ch.progress = 0) (hs : ch.stepCounter = 0) :
    ∀ k, ((chanIter p d ch (k + 1)).ledBrightness = d ∧
          (chanIter p d ch (k + 1)).progress = (k + 1) % p ∧
          (chanIter p d ch (k + 1)).stepCounter = (k + 1) * d % p) ∧
         countOn p d ch (k + 1) = ((k + 1) * d + (p - 1)) / p := by
  intro k
  induction k with
  | zero =>
    obtain ⟨l1, l2, l3, l4⟩ :=
      chanTick_mid p d 0 ch hp hp' hd hdp (by rw [h0, Nat.zero_mod])
        (by rw [hs, Nat.zero_mul, Nat.zero_mod]) (Or.inl h0)
    refine ⟨⟨l1, l2, l3⟩, ?_⟩
    have hOn : chanOn p d ch 0 = true := l4.mpr (Or.inl (by rw [Nat.zero_mul, Nat.zero_mod]))
    show countOn p d ch 0 + (if chanOn p d ch 0 then 1 else 0) = (1 * d + (p - 1)) / p
    rw [hOn, if_pos rfl]
    show 0 + 1 = (1 * d + (p - 1)) / p
    rw [one_mul, Nat.zero_add]
    exact (Nat.div_eq_of_lt_le (by omega) (by omega)).symm
  | succ k ih =>
    obtain ⟨⟨ih1, ih2, ih3⟩, ihc⟩ := ih
    obtain ⟨l1, l2, l3, l4⟩ :=
      chanTick_mid p d (k + 1) (chanIter p d ch (k + 1)) hp hp' hd hdp ih2 ih3 (Or.inr ih1)
    refine ⟨⟨l1, l2, l3⟩, ?_⟩
    have hstep := ceil_div_step p d (k + 1) (by omega) hd (by omega)
    show countOn p d ch (k + 1) + (if chanOn p d ch (k + 1) then 1 else 0) =
      ((k + 1 + 1) * d + (p - 1)) / p
    by_cases hOn : (k + 1) * d % p = 0 ∨ p < (k + 1) * d % p + d
    · have hT : chanOn p d ch (k + 1) = true := l4.mpr hOn
      rw [hT, if_pos rfl, ihc, hstep, if_pos hOn]
    · have hF : chanOn p d ch (k + 1) = false := by
        cases h : chanOn p d ch (k + 1)
        · rfl
        · exact absurd (l4.mp h) hOn
      rw [hF, if_neg (by simp), ihc, hstep, if_neg hOn]

/-- C1: for every channel, every duty d with 1 <= d <= period-1, starting a
    refresh cycle at a cycle boundary (progress = 0, accumulator = 0) with the
    duty register constantly holding d, the ISR decision is ON on exactly d of
    the period ticks of the cycle. -/
theorem c1_pulse_count (i : Fin 3) (d : Nat) (ch : Chan)
    (h0 : ch.progress = 0) (hs : ch.stepCounter = 0)
    (hd : 1 ≤ d) (hdp : d ≤ brightnessLevelLedON i - 1) :
    countOn (brightnessLevelLedON i) d ch (brightnessLevelLedON i) = d := by
  have hp : 2 ≤ brightnessLevelLedON i ∧ brightnessLevelLedON i ≤ 32767 := by
    fin_cases i <;> exact ⟨by decide, by decide⟩
  obtain ⟨hp2, hp3⟩ := hp
  obtain ⟨-, hcount⟩ :=
    chanCycle (brightnessLevelLedON i) d ch hp2 hp3 hd hdp h0 hs (brightnessLevelLedON i - 1)
  have hone : brightnessLevelLedON i - 1 + 1 = brightnessLevelLedON i := by omega
  rw [hone] at hcount
  rw [hcount, Nat.mul_comm (brightnessLevelLedON i) d]
  have hexp : (d + 1) * brightnessLevelLedON i =
      d * brightnessLevelLedON i + brightnessLevelLedON i := by
    rw [add_mul, one_mul]
  exact Nat.div_eq_of_lt_le (by omega) (by omega)

theorem c1_pulse_count_witness :
    (1 : Nat) ≤ 5 ∧ 5 ≤ brightnessLevelLedON 0 - 1 ∧
    countOn (brightnessLevelLedON 0) 5 startCh (brightnessLevelLedON 0) = 5 :=
  ⟨by decide, by decide, c1_pulse_count 0 5 startCh rfl rfl (by decide) (by decide)⟩

/-- The ON-decision count over the first k ticks of a boundary-started run with
    constant in-range duty equals the ceiling of k*d/p, for every k. -/
theorem countOn_closed (p d : Nat) (ch : Chan) (hp : 2 ≤ p) (hp' : p ≤ 32767)
    (hd : 1 ≤ d) (hdp : d ≤ p - 1) (h0 : ch.progress = 0) (hs : ch.stepCounter = 0) :
    ∀ k, countOn p d ch k = (k * d + (p - 1)) / p := by
  intro k
  cases k with
  | zero =>
    show (0 : Nat) = (0 * d + (p - 1)) / p
    rw [Nat.zero_mul, Nat.zero_add]
    exact (Nat.div_eq_of_lt (by omega)).symm
  | succ k => exact (chanCycle p d ch hp hp' hd hdp h0 hs k).2

/-- If no tick in [a, b) produces an ON decision, the ON count does not move. -/
theorem countOn_const (p d : Nat) (ch : Chan) (a : Nat) :
    ∀ b, a ≤ b → (∀ j, a ≤ j → j < b → chanOn p d ch j = false) →
    countOn p d ch b = countOn p d ch a := by
  intro b
  induction b with
  | zero =>
    intro hab _
    have : a = 0 := Nat.le_zero.mp hab
    rw [this]
  | succ b ih =>
    intro hab hoff
    by_cases hab' : a = b + 1
    · rw [hab']
    · have hab2 : a ≤ b := by omega
      have hoffb : chanOn p d ch b = false := hoff b hab2 (by omega)
      show countOn p d ch b + (if chanOn p d ch b then 1 else 0) = countOn p d ch a
      rw [hoffb, if_neg (by simp), Nat.add_zero]
      exact ih hab2 (fun j hj1 hj2 => hoff j hj1 (by omega))

/-- Between two consecutive ON decisions of a boundary-started constant-duty
    run, the number of ticks lies between p/d and p/d + 1. -/
theorem gap_bounds (p d : Nat) (ch : Chan) (hp : 2 ≤ p) (hp' : p ≤ 32767)
    (hd : 1 ≤ d) (hdp : d ≤ p - 1) (h0 : ch.progress = 0) (hs : ch.stepCounter = 0)
    (k1 k2 : Nat) (hk : k1 < k2)
    (hON1 : chanOn p d ch k1 = true) (hON2 : chanOn p d ch k2 = true)
    (hbet : ∀ j, k1 < j → j < k2 → chanOn p d ch j = false) :
    p / d ≤ k2 - k1 ∧ k2 - k1 ≤ p / d + 1 := by
  have hp0 : 0 < p := by omega
  have hd0 : 0 < d := hd
  have hc : ∀ k, countOn p d ch k = (k * d + (p - 1)) / p :=
    countOn_closed p d ch hp hp' hd hdp h0 hs
  have hc1 : countOn p d ch (k1 + 1) = countOn p d ch k1 + 1 := by
    show countOn p d ch k1 + (if chanOn p d ch k1 then 1 else 0) = countOn p d ch k1 + 1
    rw [hON1, if_pos rfl]
  have hc2 : countOn p d ch (k2 + 1) = countOn p d ch k2 + 1 := by
    show countOn p d ch k2 + (if chanOn p d ch k2 then 1 else 0) = countOn p d ch k2 + 1
    rw [hON2, if_pos rfl]
  have hconst : countOn p d ch k2 = countOn p d ch (k1 + 1) :=
    countOn_const p d ch (k1 + 1) k2 (by omega)
      (fun j hj1 hj2 => hbet j (by omega) hj2)
  have f1 : (k1 * d + (p - 1)) / p = countOn p d ch k1 := (hc k1).symm
  have f2 : ((k1 + 1) * d + (p - 1)) / p = countOn p d ch k1 + 1 := by
    rw [← hc (k1 + 1), hc1]
  have f3 : (k2 * d + (p - 1)) / p = countOn p d ch k1 + 1 := by
    rw [← hc k2, hconst, hc1]
  have f4 : ((k2 + 1) * d + (p - 1)) / p = countOn p d ch k1 + 2 := by
    rw [← hc (k2 + 1), hc2, hconst, hc1]
  have g1 : k1 * d ≤ countOn p d ch k1 * p := by
    have h := (Nat.div_lt_iff_lt_mul hp0).mp
      (show (k1 * d + (p - 1)) / p < countOn p d ch k1 + 1 by rw [f1]; omega)
    rw [add_mul, one_mul] at h
    omega
  have g2 : countOn p d ch k1 * p + p ≤ k1 * d + d + (p - 1) := by
    have h := (Nat.le_div_iff_mul_le hp0).mp
      (show countOn p d ch k1 + 1 ≤ ((k1 + 1) * d + (p - 1)) / p by rw [f2])
    rw [add_mul, one_mul, add_mul, one_mul] at h
    omega
  have g3 : k2 * d ≤ countOn p d ch k1 * p + p := by
    have h := (Nat.div_lt_iff_lt_mul hp0).mp
      (show (k2 * d + (p - 1)) / p < countOn p d ch k1 + 2 by rw [f3]; omega)
    rw [add_mul] at h
    omega
  have g4 : countOn p d ch k1 * p + 2 * p ≤ k2 * d + d + (p - 1) := by
    have h := (Nat.le_div_iff_mul_le hp0).mp
      (show countOn p d ch k1 + 2 ≤ ((k2 + 1) * d + (p - 1)) / p by rw [f4])
    rw [add_mul, add_mul, one_mul] at h
    omega
  have e5 : (k2 - k1) * d + k1 * d = k2 * d := by
    rw [← add_mul]
    congr 1
    omega
  have e6 : (k2 - k1 - 1) * d + d = (k2 - k1) * d := by
    have h1 : k2 - k1 - 1 + 1 = k2 - k1 := by omega
    calc (k2 - k1 - 1) * d + d = (k2 - k1 - 1 + 1) * d := by rw [add_mul, one_mul]
    _ = (k2 - k1) * d := by rw [h1]
  have e7 : (k2 - k1 + 1) * d = (k2 - k1) * d + d := by rw [add_mul, one_mul]
  constructor
  · have hA : p / d * d ≤ p := Nat.div_mul_le_self p d
    have hlt : p / d * d < (k2 - k1 + 1) * d := by omega
    have := lt_of_mul_lt_mul_right hlt (Nat.zero_le d)
    omega
  · have htd : (k2 - k1 - 1) * d ≤ p := by omega
    have := (Nat.le_div_iff_mul_le hd0).mpr htd
    omega

/-- C3: for every channel and every duty d in [1, period-1], within one
    boundary-started refresh cycle the numbers of ticks between any two pairs
    of consecutive ON pulses differ by at most 1 (so the maximum gap exceeds
    the minimum gap by at most 1). -/
theorem c3_even_distribution (i : Fin 3) (d : Nat) (ch : Chan)
    (h0 : ch.progress = 0) (hs : ch.stepCounter = 0)
    (hd : 1 ≤ d) (hdp : d ≤ brightnessLevelLedON i - 1)
    (k1 k2 m1 m2 : Nat)
    (hk : k1 < k2) (hk2 : k2 < brightnessLevelLedON i)
    (hON1 : chanOn (brightnessLevelLedON i) d ch k1 = true)
    (hON2 : chanOn (brightnessLevelLedON i) d ch k2 = true)
    (hbet : ∀ j, k1 < j → j < k2 → chanOn (brightnessLevelLedON i) d ch j = false)
    (hm : m1 < m2) (hm2 : m2 < brightnessLevelLedON i)
    (hONm1 : chanOn (brightnessLevelLedON i) d ch m1 = true)
    (hONm2 : chanOn (brightnessLevelLedON i) d ch m2 = true)
    (hbetm : ∀ j, m1 < j → j < m2 → chanOn (brightnessLevelLedON i) d ch j = false) :
    k2 - k1 ≤ (m2 - m1) + 1 := by
  have hpb : 2 ≤ brightnessLevelLedON i ∧ brightnessLevelLedON i ≤ 32767 := by
    fin_cases i <;> exact ⟨by decide, by decide⟩
  obtain ⟨hgl, hgu⟩ := gap_bounds (brightnessLevelLedON i) d ch hpb.1 hpb.2 hd hdp
    h0 hs k1 k2 hk hON1 hON2 hbet
  obtain ⟨hhl, hhu⟩ := gap_bounds (brightnessLevelLedON i) d ch hpb.1 hpb.2 hd hdp
    h0 hs m1 m2 hm hONm1 hONm2 hbetm
  omega

theorem c3_even_distribution_witness :
    chanOn (brightnessLevelLedON 0) 7 startCh 8 = true ∧
    chanOn (brightnessLevelLedON 0) 7 startCh 13 = true ∧
    chanOn (brightnessLevelLedON 0) 7 startCh 0 = true ∧
    chanOn (brightnessLevelLedON 0) 7 startCh 4 = true ∧
    (13 : Nat) - 8 ≤ (4 - 0) + 1 :=
  ⟨by decide, by decide, by decide, by decide,
   c3_even_distribution 0 7 startCh rfl rfl (by decide) (by decide) 8 13 0 4
     (by decide) (by decide) (by decide) (by decide)
     (fun j hj1 hj2 => by interval_cases j <;> decide)
     (by decide) (by decide) (by decide) (by decide)
     (fun j hj1 hj2 => by interval_cases j <;> decide)⟩

/-! Lemmas connecting the full ISR run to the single-channel run. -/

theorem envApply_chans (e : (Fin 3 → Nat) × Bool) (s : IsrState) :
    (envApply e s).chans = s.chans := rfl

theorem envApply_brightness (e : (Fin 3 → Nat) × Bool) (s : IsrState) :
    (envApply e s).brightness = e.1 := rfl

/-- Once initValues is cleared it stays cleared, and channel i of the full ISR
    run evolves exactly as the single-channel run fed with the successive
    shared-register contents for channel i. -/
theorem isrRun_proj (env : Nat → (Fin 3 → Nat) × Bool) (s : IsrState)
    (h : s.initValues = false) (i : Fin 3) :
    ∀ n, (isrRunFrom env s n).initValues = false ∧
         (isrRunFrom env s n).chans i =
           chanIterSeq (brightnessLevelLedON i) (fun k => (env k).1 i) (s.chans i) n := by
  intro n
  induction n with
  | zero => exact ⟨h, rfl⟩
  | succ n ih =>
    obtain ⟨ih1, ih2⟩ := ih
    have henv1 : (envApply (env n) (isrRunFrom env s n)).initValues = false := by
      show ((isrRunFrom env s n).initValues && (env n).2) = false
      rw [ih1, Bool.false_and]
    constructor
    · show (isrTick (envApply (env n) (isrRunFrom env s n))).initValues = false
      rw [isrTick_initValues, henv1]
    · show (isrTick (envApply (env n) (isrRunFrom env s n))).chans i = _
      rw [isrTick_chans _ henv1 i, envApply_chans, envApply_brightness, ih2]
      rfl

/-- Progress of a channel advances by 1 mod p on every tick, whatever the
    shared register holds. -/
theorem chanIterSeq_progress (p : Nat) (inp : Nat → Nat) (ch : Chan)
    (hp : 0 < p) (hp' : p ≤ 65535) (hg : ch.progress < p) :
    ∀ k, (chanIterSeq p inp ch k).progress = (ch.progress + k) % p := by
  intro k
  induction k with
  | zero =>
    show ch.progress = (ch.progress + 0) % p
    rw [Nat.add_zero, Nat.mod_eq_of_lt hg]
  | succ k ih =>
    show (chanTick p (inp k) (chanIterSeq p inp ch k)).1.progress = _
    rw [chanTick_fst_progress, ih]
    have hlt : (ch.progress + k) % p < p := Nat.mod_lt _ hp
    rw [Nat.mod_eq_of_lt (show (ch.progress + k) % p + 1 < 65536 by omega),
      Nat.mod_add_mod, Nat.add_assoc]

/-- The completed-cycle counter after k ticks: the start value plus the number
    of boundary ticks passed, mod 2^32. -/
theorem chanIterSeq_count (p : Nat) (inp : Nat → Nat) (ch : Chan)
    (hp : 0 < p) (hp' : p ≤ 65535) (hg : ch.progress < p)
    (hc : ch.pulseTrainCount < 4294967296) :
    ∀ k, (chanIterSeq p inp ch k).pulseTrainCount =
      (ch.pulseTrainCount + hitCount p ch.progress k) % 4294967296 := by
  intro k
  induction k with
  | zero =>
    show ch.pulseTrainCount = (ch.pulseTrainCount + 0) % 4294967296
    rw [Nat.add_zero, Nat.mod_eq_of_lt hc]
  | succ k ih =>
    show (chanTick p (inp k) (chanIterSeq p inp ch k)).1.pulseTrainCount = _
    rw [chanTick_fst_pulseTrainCount, chanIterSeq_progress p inp ch hp hp' hg k, ih]
    by_cases hb : (ch.progress + k) % p = 0
    · rw [if_pos hb, Nat.mod_add_mod]
      have hh : hitCount p ch.progress (k + 1) = hitCount p ch.progress k + 1 := by
        show hitCount p ch.progress k + (if (ch.progress + k) % p = 0 then 1 else 0) = _
        rw [if_pos hb]
      rw [hh, ← Nat.add_assoc]
    · rw [if_neg hb]
      have hh : hitCount p ch.progress (k + 1) = hitCount p ch.progress k := by
        show hitCount p ch.progress k + (if (ch.progress + k) % p = 0 then 1 else 0) = _
        rw [if_neg hb, Nat.add_zero]
      rw [hh]

/-- Over p consecutive ticks, a channel whose progress starts at g < p passes
    exactly one cycle boundary. -/
theorem boundary_once (p g : Nat) (hp : 0 < p) (hg : g < p) : hitCount p g p = 1 := by
  have key : ∀ k, k ≤ p → hitCount p g k = if (p - g) % p < k then 1 else 0 := by
    intro k
    induction k with
    | zero =>
      intro _
      show (0 : Nat) = if (p - g) % p < 0 then 1 else 0
      rw [if_neg (Nat.not_lt_zero _)]
    | succ k ih =>
      intro hk
      have hk' : k ≤ p := by omega
      have hkp : k < p := by omega
      have ht : (p - g) % p < p := Nat.mod_lt _ hp
      have hcond : ((g + k) % p = 0) ↔ k = (p - g) % p := by
        rcases Nat.eq_zero_or_pos g with hg0 | hgpos
        · subst hg0
          rw [Nat.sub_zero, Nat.mod_self, Nat.zero_add, Nat.mod_eq_of_lt hkp]
        · have hw : (p - g) % p = p - g := Nat.mod_eq_of_lt (by omega)
          rw [hw]
          constructor
          · intro h
            obtain ⟨m, hm⟩ := Nat.dvd_of_mod_eq_zero h
            have hm2 : m < 2 := by
              by_contra hge
              push_neg at hge
              have := Nat.mul_le_mul_left p hge
              omega
            interval_cases m <;> omega
          · intro h
            have : g + k = p := by omega
            rw [this, Nat.mod_self]
      show hitCount p g k + (if (g + k) % p = 0 then 1 else 0) =
        if (p - g) % p < k + 1 then 1 else 0
      rw [ih hk']
      by_cases hb : (g + k) % p = 0
      · have hkt : k = (p - g) % p := hcond.mp hb
        rw [if_pos hb]
        split_ifs <;> omega
      · have hkt : ¬(k = (p - g) % p) := fun h => hb (hcond.mpr h)
        rw [if_neg hb]
        split_ifs <;> omega
  rw [key p (Nat.le_refl p), if_pos (Nat.mod_lt _ hp)]

/-- C5: once initialization is done, each channel's pulseTrainCount increases
    by exactly 1 (mod 2^32) over each window of period ticks; per tick, it
    increments exactly on ticks that start at a cycle boundary (progress = 0)
    and is unchanged otherwise. -/
theorem c5_monotonic_counter (s : IsrState) (env : Nat → (Fin 3 → Nat) × Bool)
    (i : Fin 3) (hinit : s.initValues = false)
    (hprog : (s.chans i).progress < brightnessLevelLedON i)
    (hcnt : (s.chans i).pulseTrainCount < 4294967296) :
    ((isrRunFrom env s (brightnessLevelLedON i)).chans i).pulseTrainCount =
      ((s.chans i).pulseTrainCount + 1) % 4294967296 ∧
    (∀ n, ((isrRunFrom env s (n + 1)).chans i).pulseTrainCount =
      (if ((isrRunFrom env s n).chans i).progress = 0
       then (((isrRunFrom env s n).chans i).pulseTrainCount + 1) % 4294967296
       else ((isrRunFrom env s n).chans i).pulseTrainCount)) := by
  have hpb : 0 < brightnessLevelLedON i ∧ brightnessLevelLedON i ≤ 65535 := by
    fin_cases i <;> exact ⟨by decide, by decide⟩
  have hproj := isrRun_proj env s hinit i
  constructor
  · rw [(hproj _).2, chanIterSeq_count _ _ _ hpb.1 hpb.2 hprog hcnt,
      boundary_once _ _ hpb.1 hprog]
  · intro n
    have henv1 : (envApply (env n) (isrRunFrom env s n)).initValues = false := by
      show ((isrRunFrom env s n).initValues && (env n).2) = false
      rw [(hproj n).1, Bool.false_and]
    show ((isrTick (envApply (env n) (isrRunFrom env s n))).chans i).pulseTrainCount = _
    rw [isrTick_chans _ henv1 i, chanTick_fst_pulseTrainCount, envApply_chans]

theorem c5_monotonic_counter_witness :
    ((isrRunFrom sampleEnv sampleState (brightnessLevelLedON 0)).chans 0).pulseTrainCount =
      ((sampleState.chans 0).pulseTrainCount + 1) % 4294967296 :=
  (c5_monotonic_counter sampleState sampleEnv 0 rfl (by decide) (by decide)).1

/-- Full value of the step counter after one tick, in terms of the loaded
    brightness (the shared input on boundary ticks, the old loaded value
    otherwise). -/
theorem chanTick_fst_stepCounter (p input : Nat) (ch : Chan) :
    (chanTick p input ch).1.stepCounter =
      if (if ch.progress = 0 then input else ch.ledBrightness) = 0 then ch.stepCounter
      else if ch.stepCounter = 0 then
        (if (if ch.progress = 0 then input else ch.ledBrightness) = p then 0
         else (if ch.progress = 0 then input else ch.ledBrightness))
      else ((ch.stepCounter + (if ch.progress = 0 then input else ch.ledBrightness)) % 65536) % p := by
  unfold chanTick bresenhamDecision advanceProgress loadAtBoundary
  split_ifs <;> simp_all

/-- The single-channel invariant is preserved by one tick, for any in-range
    shared-register content. -/
theorem chanTick_inv (p input : Nat) (ch : Chan) (hp : 2 ≤ p) (hp' : p ≤ 32767)
    (hinp : input ≤ p) (h : ChanInv p ch) : ChanInv p (chanTick p input ch).1 := by
  obtain ⟨h1, h2, h3⟩ := h
  set led := if ch.progress = 0 then input else ch.ledBrightness with hled
  have hledle : led ≤ p := by
    rw [hled]
    split_ifs
    · exact hinp
    · exact h2
  have hprog : (chanTick p input ch).1.progress = (ch.progress + 1) % p := by
    rw [chanTick_fst_progress, Nat.mod_eq_of_lt (show ch.progress + 1 < 65536 by omega)]
  have hledeq : (chanTick p input ch).1.ledBrightness = led := chanTick_fst_ledBrightness p input ch
  have hstep := chanTick_fst_stepCounter p input ch
  refine ⟨?_, ?_, ?_⟩
  · rw [hprog]
    exact Nat.mod_lt _ (by omega)
  · rw [hledeq]
    exact hledle
  · rw [hstep, hledeq, hprog]
    by_cases hz : ch.progress = 0
    · have hin : led = input := by rw [hled, if_pos hz]
      have hsc0 : ch.stepCounter = 0 := by rw [h3, hz, Nat.zero_mul, Nat.zero_mod]
      have hprogeq : (ch.progress + 1) % p = 1 := by
        rw [hz]
        exact Nat.mod_eq_of_lt (by omega)
      rw [hprogeq, one_mul]
      by_cases hi0 : led = 0
      · rw [if_pos hi0, hsc0, hi0, Nat.zero_mod]
      · rw [if_neg hi0, if_pos hsc0]
        by_cases hip : led = p
        · rw [if_pos hip, hip, Nat.mod_self]
        · rw [if_neg hip, Nat.mod_eq_of_lt (by omega)]
    · have hledB : led = ch.ledBrightness := by rw [hled, if_neg hz]
      by_cases hi0 : led = 0
      · rw [if_pos hi0, h3, ← hledB, hi0]
        simp
      · by_cases hsc : ch.stepCounter = 0
        · rw [if_neg hi0, if_pos hsc]
          have hzz : ch.progress * led % p = 0 := by
            rw [hledB, ← h3]
            exact hsc
          have hnew : (ch.progress + 1) % p * led % p = led % p := by
            rw [Nat.mod_mul_mod, add_mul, one_mul, ← Nat.mod_add_mod, hzz, Nat.zero_add]
          rw [hnew]
          by_cases hip : led = p
          · rw [if_pos hip, hip, Nat.mod_self]
          · rw [if_neg hip, Nat.mod_eq_of_lt (by omega)]
        · rw [if_neg hi0, if_neg hsc]
          have hsclt : ch.stepCounter < p := by
            rw [h3]
            exact Nat.mod_lt _ (by omega)
          rw [Nat.mod_eq_of_lt (show ch.stepCounter + led < 65536 by omega)]
          have hrhs : (ch.progress + 1) % p * led % p = (ch.progress * led + led) % p := by
            rw [Nat.mod_mul_mod, add_mul, one_mul]
          rw [hrhs, h3, ← hledB, Nat.mod_add_mod]

/-- Every state of the ISR reachable from the zero-initialized state under
    in-range shared writes satisfies the per-channel invariant. -/
theorem isr_inv (env : Nat → (Fin 3 → Nat) × Bool)
    (henv : ∀ k (i : Fin 3), (env k).1 i ≤ brightnessLevelLedON i) :
    ∀ n (i : Fin 3), ChanInv (brightnessLevelLedON i) ((isrRunFrom env isrInit n).chans i) := by
  intro n
  induction n with
  | zero =>
    intro i
    refine ⟨?_, ?_, ?_⟩
    · show (0 : Nat) < brightnessLevelLedON i
      fin_cases i <;> decide
    · exact Nat.zero_le _
    · show (0 : Nat) = 0 * 0 % brightnessLevelLedON i
      rw [Nat.zero_mul, Nat.zero_mod]
  | succ n ih =>
    intro i
    show ChanInv (brightnessLevelLedON i)
      ((isrTick (envApply (env n) (isrRunFrom env isrInit n))).chans i)
    cases hInit : (envApply (env n) (isrRunFrom env isrInit n)).initValues with
    | true =>
      rw [isrTick_of_init _ hInit]
      exact ih i
    | false =>
      rw [isrTick_chans _ hInit i, envApply_chans, envApply_brightness]
      apply chanTick_inv
      · fin_cases i <;> decide
      · fin_cases i <;> decide
      · exact henv n i
      · exact ih i

/-- C9: in every ISR state reachable from the zero-initialized state with all
    shared duty writes in [0, period], whenever a channel's progress is 0 at
    the start of a tick its step counter is 0 as well: every refresh cycle
    begins in the canonical Bresenham start state. -/
theorem c9_cycle_start_canonical (env : Nat → (Fin 3 → Nat) × Bool)
    (henv : ∀ k (i : Fin 3), (env k).1 i ≤ brightnessLevelLedON i)
    (n : Nat) (i : Fin 3)
    (h0 : ((isrRunFrom env isrInit n).chans i).progress = 0) :
    ((isrRunFrom env isrInit n).chans i).stepCounter = 0 := by
  obtain ⟨-, -, h3⟩ := isr_inv env henv n i
  rw [h3, h0, Nat.zero_mul, Nat.zero_mod]

/-! Controller (loop()) lemmas: the gamma approximation and the ramping
    invariant. -/

theorem gammaApprox_mono (b u v : Nat) (huv : u ≤ v) (hv : v ≤ 32767) :
    gammaApprox b u ≤ gammaApprox b v := by
  unfold gammaApprox
  rw [Nat.shiftRight_eq_div_pow, Nat.shiftRight_eq_div_pow]
  apply Nat.div_le_div_right
  rw [Nat.mod_eq_of_lt (show u + 1 < 65536 by omega),
    Nat.mod_eq_of_lt (show v + 1 < 65536 by omega)]
  exact Nat.mul_le_mul huv (by omega)

/-- At the top of the ramp the gamma approximation is exact: the corrected
    value of pulsesON = 2^b - 1 is 2^b - 1 itself. -/
theorem gammaApprox_top (b : Nat) (hb : b ≤ 15) :
    gammaApprox b (2 ^ b - 1) = 2 ^ b - 1 := by
  unfold gammaApprox
  have hp : (0 : Nat) < 2 ^ b := Nat.two_pow_pos b
  have hle : (2 : Nat) ^ b ≤ 2 ^ 15 := Nat.pow_le_pow_right (by omega) hb
  have h15 : (2 : Nat) ^ 15 = 32768 := by norm_num
  have h1 : 2 ^ b - 1 + 1 = 2 ^ b := by omega
  rw [h1, Nat.mod_eq_of_lt (by omega), Nat.shiftRight_eq_div_pow,
    Nat.mul_div_cancel _ hp]

/-- Below the top of the ramp the gamma-corrected value stays strictly below
    the fully-ON level. -/
theorem gammaApprox_lt (b u : Nat) (hb2 : 2 ≤ b) (hb : b ≤ 15) (hu : u ≤ 2 ^ b - 2) :
    gammaApprox b u < 2 ^ b - 1 := by
  unfold gammaApprox
  have hp : (0 : Nat) < 2 ^ b := Nat.two_pow_pos b
  have hle : (2 : Nat) ^ b ≤ 2 ^ 15 := Nat.pow_le_pow_right (by omega) hb
  have h15 : (2 : Nat) ^ 15 = 32768 := by norm_num
  have h4 : (4 : Nat) ≤ 2 ^ b := by
    calc (4 : Nat) = 2 ^ 2 := by norm_num
    _ ≤ 2 ^ b := Nat.pow_le_pow_right (by omega) hb2
  rw [Nat.shiftRight_eq_div_pow, Nat.mod_eq_of_lt (show u + 1 < 65536 by omega),
    Nat.div_lt_iff_lt_mul hp]
  calc u * (u + 1) ≤ (2 ^ b - 2) * (2 ^ b - 1) := Nat.mul_le_mul hu (by omega)
  _ < (2 ^ b - 1) * 2 ^ b := by
      obtain ⟨Q, hQ⟩ : ∃ q, 2 ^ b = q + 4 := ⟨2 ^ b - 4, by omega⟩
      rw [hQ]
      have e1 : Q + 4 - 2 = Q + 2 := by omega
      have e2 : Q + 4 - 1 = Q + 3 := by omega
      rw [e1, e2]
      nlinarith

theorem ctrlStep_pulsesON (b low : Nat) (c : Ctrl) :
    (ctrlStep b low c).pulsesON = (((c.pulsesON : Int) + c.direction) % 65536).toNat := rfl

theorem ctrlStep_br (b low : Nat) (c : Ctrl) :
    (ctrlStep b low c).br =
      (max (gammaApprox b ((((c.pulsesON : Int) + c.direction) % 65536).toNat)) low)
        % 65536 := rfl

theorem ctrlStep_direction (b low : Nat) (c : Ctrl) :
    (ctrlStep b low c).direction =
      if ((ctrlStep b low c).br = low ∧ c.direction = -1) ∨
         (ctrlStep b low c).br = (1 <<< b) - 1 then -c.direction
      else c.direction := rfl

/-- The initial controller state satisfies the ramping invariant: the inverse
    gamma of the lowest level is at least 2 below the top of the ramp. -/
theorem ctrlInit_inv (b low : Nat) (hb2 : 2 ≤ b) (hlow : low + 2 ≤ 2 ^ b) :
    CtrlInv b low (ctrlInit b low) := by
  left
  refine ⟨rfl, ?_⟩
  show Nat.sqrt (low <<< b) + 2 ≤ 2 ^ b
  have h1 : low <<< b = low * 2 ^ b := Nat.shiftLeft_eq low b
  have h4 : (4 : Nat) ≤ 2 ^ b := by
    calc (4 : Nat) = 2 ^ 2 := by norm_num
    _ ≤ 2 ^ b := Nat.pow_le_pow_right (by omega) hb2
  have h2 : Nat.sqrt (low * 2 ^ b) < 2 ^ b - 1 := by
    rw [Nat.sqrt_lt]
    calc low * 2 ^ b ≤ (2 ^ b - 2) * 2 ^ b := Nat.mul_le_mul_right _ (by omega)
    _ < (2 ^ b - 1) * (2 ^ b - 1) := by
        obtain ⟨Q, hQ⟩ : ∃ q, 2 ^ b = q + 4 := ⟨2 ^ b - 4, by omega⟩
        rw [hQ]
        have e1 : Q + 4 - 2 = Q + 2 := by omega
        have e2 : Q + 4 - 1 = Q + 3 := by omega
        rw [e1, e2]
        nlinarith
  rw [h1]
  omega

/-- One triggered controller step preserves the ramping invariant and writes a
    brightness inside [low, 2^b - 1]. -/
theorem ctrlStep_inv (b low : Nat) (c : Ctrl) (hb2 : 2 ≤ b) (hb : b ≤ 15)
    (hlow : low + 2 ≤ 2 ^ b) (h : CtrlInv b low c) :
    CtrlInv b low (ctrlStep b low c) ∧
    low ≤ (ctrlStep b low c).br ∧ (ctrlStep b low c).br ≤ 2 ^ b - 1 := by
  have hle : (2 : Nat) ^ b ≤ 2 ^ 15 := Nat.pow_le_pow_right (by omega) hb
  have h15 : (2 : Nat) ^ 15 = 32768 := by norm_num
  set u2 := (((c.pulsesON : Int) + c.direction) % 65536).toNat with hudef
  have hbr : (ctrlStep b low c).br = max (gammaApprox b u2) low % 65536 :=
    ctrlStep_br b low c
  rcases h with ⟨hdir, hu⟩ | ⟨hdir, hu, hg⟩
  · -- ramping up
    have huv : u2 = c.pulsesON + 1 := by
      rw [hudef, hdir]
      omega
    by_cases htop : u2 = 2 ^ b - 1
    · have hgam : gammaApprox b u2 = 2 ^ b - 1 := by
        rw [htop]
        exact gammaApprox_top b hb
      have hbrval : (ctrlStep b low c).br = 2 ^ b - 1 := by
        rw [hbr, hgam, Nat.max_eq_left (by omega), Nat.mod_eq_of_lt (by omega)]
      refine ⟨?_, ?_, ?_⟩
      · right
        refine ⟨?_, ?_, ?_⟩
        · rw [ctrlStep_direction,
            if_pos (Or.inr (by rw [hbrval, Nat.one_shiftLeft])), hdir]
        · show (ctrlStep b low c).pulsesON + 1 ≤ 2 ^ b
          rw [ctrlStep_pulsesON, ← hudef, htop]
          omega
        · show low < gammaApprox b (ctrlStep b low c).pulsesON
          rw [ctrlStep_pulsesON, ← hudef, htop, gammaApprox_top b hb]
          omega
      · rw [hbrval]
        omega
      · rw [hbrval]
    · have hule : u2 ≤ 2 ^ b - 2 := by omega
      have hgam : gammaApprox b u2 < 2 ^ b - 1 := gammaApprox_lt b u2 hb2 hb hule
      have hbrval : (ctrlStep b low c).br = max (gammaApprox b u2) low := by
        rw [hbr, Nat.mod_eq_of_lt (by omega)]
      have hbrlt : (ctrlStep b low c).br < 2 ^ b - 1 := by
        rw [hbrval]
        exact Nat.max_lt.mpr ⟨hgam, by omega⟩
      refine ⟨?_, ?_, ?_⟩
      · left
        constructor
        · rw [ctrlStep_direction, if_neg ?_]
          · exact hdir
          · intro hcond
            rcases hcond with ⟨-, hd⟩ | hbt
            · rw [hdir] at hd
              exact absurd hd (by decide)
            · rw [Nat.one_shiftLeft] at hbt
              omega
        · show (ctrlStep b low c).pulsesON + 2 ≤ 2 ^ b
          rw [ctrlStep_pulsesON, ← hudef]
          omega
      · rw [hbrval]
        exact Nat.le_max_right _ _
      · omega
  · -- ramping down
    have hupos : 1 ≤ c.pulsesON := by
      by_contra h0
      push_neg at h0
      have hz : c.pulsesON = 0 := by omega
      rw [hz] at hg
      simp [gammaApprox] at hg
    have huv : u2 = c.pulsesON - 1 := by
      rw [hudef, hdir]
      omega
    have hule : u2 ≤ 2 ^ b - 2 := by omega
    have hgamlt : gammaApprox b u2 < 2 ^ b - 1 := gammaApprox_lt b u2 hb2 hb hule
    have hbrval : (ctrlStep b low c).br = max (gammaApprox b u2) low := by
      rw [hbr, Nat.mod_eq_of_lt (by omega)]
    by_cases hbl : max (gammaApprox b u2) low = low
    · refine ⟨?_, ?_, ?_⟩
      · left
        constructor
        · rw [ctrlStep_direction, if_pos (Or.inl ⟨by rw [hbrval, hbl], hdir⟩), hdir]
          decide
        · show (ctrlStep b low c).pulsesON + 2 ≤ 2 ^ b
          rw [ctrlStep_pulsesON, ← hudef]
          omega
      · rw [hbrval, hbl]
      · rw [hbrval, hbl]
        omega
    · have hglow : low < gammaApprox b u2 := by
        by_contra hcon
        push_neg at hcon
        exact hbl (Nat.max_eq_right hcon)
      have hmaxg : max (gammaApprox b u2) low = gammaApprox b u2 :=
        Nat.max_eq_left (by omega)
      refine ⟨?_, ?_, ?_⟩
      · right
        refine ⟨?_, ?_, ?_⟩
        · rw [ctrlStep_direction, if_neg ?_]
          · exact hdir
          · intro hcond
            rcases hcond with ⟨hbl', -⟩ | hbt
            · exact hbl (hbrval.symm.trans hbl')
            · rw [hbrval, hmaxg, Nat.one_shiftLeft] at hbt
              omega
        · show (ctrlStep b low c).pulsesON + 1 ≤ 2 ^ b
          rw [ctrlStep_pulsesON, ← hudef]
          omega
        · show low < gammaApprox b (ctrlStep b low c).pulsesON
          rw [ctrlStep_pulsesON, ← hudef]
          exact hglow
      · rw [hbrval]
        exact Nat.le_max_right _ _
      · rw [hbrval, hmaxg]
        omega

/-- The ramping invariant holds after any number of triggered steps. -/
theorem ctrl_iter_inv (b low : Nat) (hb2 : 2 ≤ b) (hb : b ≤ 15)
    (hlow : low + 2 ≤ 2 ^ b) (c : Ctrl) (h : CtrlInv b low c) :
    ∀ n, CtrlInv b low ((ctrlStep b low)^[n] c) := by
  intro n
  induction n with
  | zero => exact h
  | succ n ih =>
    rw [Function.iterate_succ_apply']
    exact (ctrlStep_inv b low _ hb2 hb hlow ih).1

/-- C7: for every channel, every brightness value the Controller computes and
    passes to the shared register lies between the channel's flicker-free
    minimum and its fully-ON level (in particular it never exceeds the
    period), including the upper bound that is not an explicit clamp but a
    consequence of the direction-flip dynamics. -/
theorem c7_controller_range (i : Fin 3) (n : Nat) :
    lowestBrightnessMinimalFlicker i ≤
      ((ctrlStep (brightness_bits i) (lowestBrightnessMinimalFlicker i))^[n + 1]
        (ctrlInit (brightness_bits i) (lowestBrightnessMinimalFlicker i))).br ∧
    ((ctrlStep (brightness_bits i) (lowestBrightnessMinimalFlicker i))^[n + 1]
        (ctrlInit (brightness_bits i) (lowestBrightnessMinimalFlicker i))).br ≤
      brightnessLevelLedON i := by
  have hb2 : 2 ≤ brightness_bits i := by fin_cases i <;> decide
  have hb15 : brightness_bits i ≤ 15 := by fin_cases i <;> decide
  have hlow : lowestBrightnessMinimalFlicker i + 2 ≤ 2 ^ brightness_bits i := by
    fin_cases i <;> decide
  have hinit := ctrlInit_inv (brightness_bits i) (lowestBrightnessMinimalFlicker i) hb2 hlow
  have hinv := ctrl_iter_inv (brightness_bits i) (lowestBrightnessMinimalFlicker i)
    hb2 hb15 hlow _ hinit n
  have hstep := ctrlStep_inv (brightness_bits i) (lowestBrightnessMinimalFlicker i)
    _ hb2 hb15 hlow hinv
  have hON : brightnessLevelLedON i = 2 ^ brightness_bits i - 1 := by
    rw [brightnessLevelLedON, Nat.one_shiftLeft]
  rw [Function.iterate_succ_apply']
  exact ⟨hstep.2.1, by rw [hON]; exact hstep.2.2⟩

set_option maxRecDepth 20000 in
theorem c9_cycle_start_canonical_witness :
    ((isrRunFrom (fun _ => (fun _ => 5, false)) isrInit 31).chans 0).stepCounter = 0 :=
  c9_cycle_start_canonical (fun _ => (fun _ => 5, false))
    (fun _ i => by show (5 : Nat) ≤ brightnessLevelLedON i; fin_cases i <;> decide)
    31 0 (by decide)

end LedDimming
